import Mathlib

/-!
Shallow embedding of the horcrux threshold-signer core: the cosigner nonce
cache (consumption, clearing, pruning, demand target, moving average), the
double-sign guard decision, and the external signer adapter `signAndTrack`.
Times and prometheus float64 metric values are modelled as rationals; byte
strings as lists of naturals.
-/

namespace Horcrux

/-! ## Nonce cache data model -/

/-- One cosigner's contribution relation inside a cached nonce entry
(`CosignerNoncesRel`): the cosigner identity (id ∈ [1..N]) plus its opaque
nonce share payload. -/
structure CosignerNoncesRel where
  cosigner : Nat
  shares : List Nat
deriving DecidableEq

/-- A pre-computed nonce entry (`CachedNonce`): uuid, expiration time, and
one `CosignerNoncesRel` per participating cosigner. -/
structure CachedNonce where
  uuid : Nat
  expiration : ℚ
  nonces : List CosignerNoncesRel
deriving DecidableEq

/-- The cosigner ids present in a cached nonce entry. -/
def CachedNonce.cosignerIDs (n : CachedNonce) : List Nat :=
  n.nonces.map (fun r => r.cosigner)

/-- Whether an entry's cosigner set contains every requested participant. -/
def hasParticipants (n : CachedNonce) (ps : List Nat) : Bool :=
  ps.all (fun p => n.cosignerIDs.contains p)

/-- Modelled from the spec: `CosignerNonceCache.GetNonces` is not under
`src/` (only its tests call it). "get_nonces(participants) scans from the
oldest entry forward (expiration order = insertion order), picks the first
entry whose per_cosigner keys ⊇ participants, removes and returns it";
"Fails with NoNoncesAvailable if none match." Returns the picked entry
(`none` = NoNoncesAvailableError) together with the updated cache. -/
def getNonces : List CachedNonce → List Nat → Option CachedNonce × List CachedNonce
  | [], _ => (none, [])
  | n :: rest, ps =>
    if hasParticipants n ps then (some n, rest)
    else
      let r := getNonces rest ps
      (r.1, n :: r.2)

/-- Modelled from the spec: `CosignerNonceCache.ClearNonces` is not under
`src/` (only its tests call it). "clear_nonces(c) removes cosigner c from
every entry; drops entries whose remaining participant count falls below
K." -/
def clearNonces (K : Nat) (c : Nat) (cache : List CachedNonce) : List CachedNonce :=
  cache.filterMap (fun n =>
    let rem := n.nonces.filter (fun r => r.cosigner ≠ c)
    if rem.length < K then none else some { n with nonces := rem })

/-- Modelled from the spec: `CosignerNonceCache.PruneNonces` is not under
`src/` (only its tests call it). "prune_nonces removes exactly the entries
with expiration ≤ now" and "returns removed count". -/
def pruneNonces (now : ℚ) : List CachedNonce → Nat × List CachedNonce
  | [] => (0, [])
  | n :: rest =>
    let r := pruneNonces now rest
    if n.expiration ≤ now then (r.1 + 1, r.2) else (r.1, n :: r.2)

/-! ## Moving average -/

/-- One sample of the rolling average: a `(duration, value)` pair. -/
structure MovingAverageItem where
  duration : ℚ
  value : ℚ
deriving DecidableEq

/-- Modelled from the spec: `movingAverage.add` is not under `src/` (only
its tests call it). Scanning from the newest sample backwards, a sample is
retained while the accumulated duration of the strictly newer retained
samples is below the window; everything older is evicted. Input and output
are newest-first; `acc` is the duration accumulated so far. -/
def keepRecent (period : ℚ) : List MovingAverageItem → ℚ → List MovingAverageItem
  | [], _ => []
  | i :: rest, acc =>
    if acc < period then i :: keepRecent period rest (acc + i.duration) else []

/-- Modelled from the spec: `movingAverage.add` appends the new sample at
the newest end, then evicts old entries per the window rule. Items are kept
oldest-first, as in the source's `ma.items` slice. -/
def maAdd (period : ℚ) (items : List MovingAverageItem) (d v : ℚ) :
    List MovingAverageItem :=
  (keepRecent period ((items ++ [MovingAverageItem.mk d v]).reverse) 0).reverse

/-- Modelled from the spec: `movingAverage.average` = Σ(value·duration) /
Σ(duration) over the retained items. -/
def maAverage (items : List MovingAverageItem) : ℚ :=
  ((items.map (fun i => i.value * i.duration)).sum) /
    ((items.map (fun i => i.duration)).sum)

/-! ## Demand target and replenishment -/

/-- Modelled from the spec: `CosignerNonceCache.target` is not under `src/`
(only its tests call it). Raw demand T = ceil(avg_pruned_per_sec ·
expiration_seconds · 1.2) with avg_pruned_per_sec = movingAverage /
interval_seconds, before clamping. -/
def rawTarget (intervalSeconds expirationSeconds avg : ℚ) : ℤ :=
  Int.ceil (avg / intervalSeconds * expirationSeconds * (6 / 5 : ℚ))

/-- Modelled from the spec: the demand target is the raw ceiling value
clamped to [min_target, max_target] = [50, 5000]. -/
def target (intervalSeconds expirationSeconds avg : ℚ) : ℤ :=
  if rawTarget intervalSeconds expirationSeconds avg < 50 then 50
  else if 5000 < rawTarget intervalSeconds expirationSeconds avg then 5000
  else rawTarget intervalSeconds expirationSeconds avg

/-- Modelled from the spec: the reconcile tick issues a replenishment of
`T − have` nonces only when the cache size `have` is below the target `T`;
otherwise no replenishment is issued. -/
def replenishAmount (tgt sz : ℤ) : Option ℤ :=
  if sz < tgt then some (tgt - sz) else none

/-! ## Double-sign guard (HRS state) -/

/-- A height/round/step point of the consensus protocol. -/
structure HRSKey where
  height : Int
  round : Int
  step : Nat
deriving DecidableEq

/-- Lexicographic strict order on (height, round, step). -/
def hrsLess (a b : HRSKey) : Bool :=
  decide (a.height < b.height ∨
    (a.height = b.height ∧ (a.round < b.round ∨
      (a.round = b.round ∧ a.step < b.step))))

/-- The durable last-signed record of one chain. -/
structure LastSignState where
  hrs : HRSKey
  signBytes : List Nat
  signature : List Nat
  timestamp : Int
deriving DecidableEq

/-- Outcome of the double-sign guard check. -/
inductive CheckResult where
  | Proceed
  | Replay (signature : List Nat) (timestamp : Int)
  | FailBeyondBlock
  | FailConflictingData
deriving DecidableEq

/-- Modelled from the spec: the guard `check_and_reserve` lives in the
threshold validator, which is not under `src/`. "hrs < last →
Fail(BeyondBlockError); hrs == last ∧ sign_bytes == last_bytes → Replay;
hrs == last ∧ sign_bytes ≠ last_bytes → Fail(ConflictingDataError);
hrs > last → Proceed." -/
def checkAndReserve (last : LastSignState) (hrs : HRSKey) (signBytes : List Nat) :
    CheckResult :=
  if hrsLess hrs last.hrs then CheckResult.FailBeyondBlock
  else if hrs = last.hrs then
    if signBytes = last.signBytes then CheckResult.Replay last.signature last.timestamp
    else CheckResult.FailConflictingData
  else CheckResult.Proceed

/-! ## External signer adapter (`signAndTrack`, from
`src/signer/remote_signer_grpc_server.go`) -/

/-- A consensus block sign request, as in the `Block` struct. -/
structure Block where
  height : Int
  round : Int
  step : Nat
  signBytes : List Nat
  timestamp : Int
deriving DecidableEq

def stepPropose : Nat := 1

def stepPrevote : Nat := 2

def stepPrecommit : Nat := 3

/-- The error returned by `validator.Sign`, split as `signAndTrack` splits
it: `*BeyondBlockError` versus every other error. -/
inductive SignErrorKind where
  | beyondBlock (msg : List Nat)
  | otherErr (msg : List Nat)
deriving DecidableEq

/-- Log levels used by `signAndTrack`. -/
inductive LogLevel where
  | debug
  | info
  | error
deriving DecidableEq

/-- The prometheus metrics and package globals touched by `signAndTrack`,
restricted to one chain id (the `WithLabelValues(chainID)` slot). Gauges
and counters are float64, modelled as rationals; `previousPrevoteHeight`
and `previousPrecommitHeight` are the int64 package globals. -/
structure SignerMetrics where
  beyondBlockErrors : ℚ
  failedSignVote : ℚ
  lastProposalHeight : ℚ
  lastProposalRound : ℚ
  totalProposalsSigned : ℚ
  lastPrevoteHeight : ℚ
  lastPrevoteRound : ℚ
  totalPrevotesSigned : ℚ
  missedPrevotes : ℚ
  totalMissedPrevotes : ℚ
  lastPrecommitHeight : ℚ
  lastPrecommitRound : ℚ
  totalPrecommitsSigned : ℚ
  missedPrecommits : ℚ
  totalMissedPrecommits : ℚ
  previousPrevoteHeight : Int
  previousPrecommitHeight : Int
deriving DecidableEq

/-- `signAndTrack` from `remote_signer_grpc_server.go`: the outcome of
`validator.Sign` is passed in as `signResult` (`ok (signature, timestamp)`
or `error e`). Returns the Go triple `(signature, timestamp, err)` — `nil`
signature modelled as `none` — plus the updated metrics state and the log
events emitted (levels only). `metricsTimeKeeper` wall-clock updates are
outside the model. -/
def signAndTrack (m : SignerMetrics) (block : Block)
    (signResult : Except SignErrorKind (List Nat × Int)) :
    (Option (List Nat) × Int × Option SignErrorKind) × SignerMetrics × List LogLevel :=
  match signResult with
  | Except.error e =>
    match e with
    | SignErrorKind.beyondBlock _ =>
      ((none, block.timestamp, some e),
       { m with beyondBlockErrors := m.beyondBlockErrors + 1 },
       [LogLevel.debug])
    | SignErrorKind.otherErr _ =>
      ((none, block.timestamp, some e),
       { m with failedSignVote := m.failedSignVote + 1 },
       [LogLevel.error])
  | Except.ok (signature, timestamp) =>
    let m1 : SignerMetrics :=
      if block.step = stepPropose then
        { m with
          lastProposalHeight := (block.height : ℚ)
          lastProposalRound := (block.round : ℚ)
          totalProposalsSigned := m.totalProposalsSigned + 1 }
      else if block.step = stepPrevote then
        let stepSize := block.height - m.previousPrevoteHeight
        let m2 : SignerMetrics :=
          if m.previousPrevoteHeight ≠ 0 ∧ 1 < stepSize then
            { m with
              missedPrevotes := m.missedPrevotes + (stepSize : ℚ)
              totalMissedPrevotes := m.totalMissedPrevotes + (stepSize : ℚ) }
          else
            { m with missedPrevotes := 0 }
        { m2 with
          previousPrevoteHeight := block.height
          lastPrevoteHeight := (block.height : ℚ)
          lastPrevoteRound := (block.round : ℚ)
          totalPrevotesSigned := m2.totalPrevotesSigned + 1 }
      else if block.step = stepPrecommit then
        let stepSize := block.height - m.previousPrecommitHeight
        let m2 : SignerMetrics :=
          if m.previousPrecommitHeight ≠ 0 ∧ 1 < stepSize then
            { m with
              missedPrecommits := m.missedPrecommits + (stepSize : ℚ)
              totalMissedPrecommits := m.totalMissedPrecommits + (stepSize : ℚ) }
          else
            { m with missedPrecommits := 0 }
        { m2 with
          previousPrecommitHeight := block.height
          lastPrecommitHeight := (block.height : ℚ)
          lastPrecommitRound := (block.round : ℚ)
          totalPrecommitsSigned := m2.totalPrecommitsSigned + 1 }
      else m
    ((some signature, timestamp, none), m1, [LogLevel.info])

/-! ## Concrete fixtures used by the test scenarios -/

/-- An entry whose cosigner set is {2}. -/
def nonceA : CachedNonce := CachedNonce.mk 1 10 [CosignerNoncesRel.mk 2 []]

/-- An entry whose cosigner set is {1, 2}. -/
def nonceB : CachedNonce :=
  CachedNonce.mk 2 10 [CosignerNoncesRel.mk 1 [], CosignerNoncesRel.mk 2 []]

/-- An entry whose cosigner set is {1, 2, 3}. -/
def nonceC : CachedNonce :=
  CachedNonce.mk 3 10
    [CosignerNoncesRel.mk 1 [], CosignerNoncesRel.mk 2 [], CosignerNoncesRel.mk 3 []]

/-- The `TestClearNonces` cache: 10 entries with participants {1,2} and 10
entries with participants {1,2,3}. -/
def clearTestCache : List CachedNonce :=
  (List.range 10).map (fun i =>
    CachedNonce.mk (2 * i) 1 [CosignerNoncesRel.mk 1 [], CosignerNoncesRel.mk 2 []]) ++
  (List.range 10).map (fun i =>
    CachedNonce.mk (2 * i + 1) 1
      [CosignerNoncesRel.mk 1 [], CosignerNoncesRel.mk 2 [], CosignerNoncesRel.mk 3 []])

/-- `TestMovingAverage` state after add(3s, 500). -/
def maTest1 : List MovingAverageItem := maAdd 12 [] 3 500

/-- `TestMovingAverage` state after add(3s, 100). -/
def maTest2 : List MovingAverageItem := maAdd 12 maTest1 3 100

/-- `TestMovingAverage` state after add(6s, 600). -/
def maTest3 : List MovingAverageItem := maAdd 12 maTest2 6 600

/-- `TestMovingAverage` state after add(3s, 500) again. -/
def maTest4 : List MovingAverageItem := maAdd 12 maTest3 3 500

/-- `TestMovingAverage` state after add(6s, 500). -/
def maTest5 : List MovingAverageItem := maAdd 12 maTest4 6 500

/-- `TestMovingAverage` state after the first add(2500ms, 1000). -/
def maTest6 : List MovingAverageItem := maAdd 12 maTest5 (5 / 2) 1000

/-- `TestMovingAverage` state after the second add(2500ms, 1000). -/
def maTest7 : List MovingAverageItem := maAdd 12 maTest6 (5 / 2) 1000

/-- `TestMovingAverage` state after the third add(2500ms, 1000). -/
def maTest8 : List MovingAverageItem := maAdd 12 maTest7 (5 / 2) 1000

/-- `TestMovingAverage` state after the fourth add(2500ms, 1000). -/
def maTest9 : List MovingAverageItem := maAdd 12 maTest8 (5 / 2) 1000

/-- `TestMovingAverage` state after the fifth add(2500ms, 1000). -/
def maTest10 : List MovingAverageItem := maAdd 12 maTest9 (5 / 2) 1000

/-- All-zero metrics state. -/
def metricsZero : SignerMetrics :=
  SignerMetrics.mk 0 0 0 0 0 0 0 0 0 0 0 0 0 0 0 0 0

/-- Metrics state whose last recorded prevote height is 5. -/
def metricsPrev5 : SignerMetrics := { metricsZero with previousPrevoteHeight := 5 }

/-- A prevote sign request at height 10. -/
def blockPrevote10 : Block := Block.mk 10 0 stepPrevote [1] 7

/-- A proposal sign request at height 11. -/
def blockPropose11 : Block := Block.mk 11 0 stepPropose [1] 7

/-! ## Helper lemmas -/

/-- Decomposition of a successful `getNonces` scan: the returned entry is
the first match, everything before it is a non-match, and the updated
cache is the original with exactly that entry removed. -/
theorem getNonces_decomp (ps : List Nat) :
    ∀ (cache : List CachedNonce) (n : CachedNonce) (c' : List CachedNonce),
      getNonces cache ps = (some n, c') →
      hasParticipants n ps = true ∧
      ∃ pre suf, cache = pre ++ n :: suf ∧ c' = pre ++ suf ∧
        ∀ m ∈ pre, hasParticipants m ps = false := by
  intro cache
  induction cache with
  | nil => intro n c' h; simp [getNonces] at h
  | cons a rest ih =>
    intro n c' h
    by_cases hm : hasParticipants a ps
    · simp [getNonces, hm] at h
      obtain ⟨hn, hc⟩ := h
      subst hn; subst hc
      exact ⟨hm, [], rest, by simp, by simp, by simp⟩
    · simp [getNonces, hm] at h
      obtain ⟨h1, h2⟩ := h
      have hr : getNonces rest ps = (some n, (getNonces rest ps).2) := by
        rw [← h1]
      obtain ⟨hp, pre, suf, hcache, hc2, hpre⟩ := ih n (getNonces rest ps).2 hr
      refine ⟨hp, a :: pre, suf, ?_, ?_, ?_⟩
      · simp [hcache]
      · rw [← h2, hc2]; rfl
      · intro x hx
        rcases List.mem_cons.mp hx with hxa | hxp
        · subst hxa; simpa using hm
        · exact hpre x hxp

/-- `keepRecent` keeps a front segment of its (newest-first) input. -/
theorem keepRecent_takes_front (W : ℚ) :
    ∀ (l : List MovingAverageItem) (acc : ℚ),
      ∃ dropped, l = keepRecent W l acc ++ dropped := by
  intro l
  induction l with
  | nil => intro acc; exact ⟨[], rfl⟩
  | cons i rest ih =>
    intro acc
    by_cases hacc : acc < W
    · obtain ⟨dropped, hd⟩ := ih (acc + i.duration)
      exact ⟨dropped, by rw [keepRecent, if_pos hacc]; simpa using hd⟩
    · exact ⟨i :: rest, by rw [keepRecent, if_neg hacc]; rfl⟩

/-- The accumulated duration at the last kept sample stays below the
window: `acc` plus the durations of all kept samples but the last is
less than `W`. -/
theorem keepRecent_acc_bound (W : ℚ) :
    ∀ (l : List MovingAverageItem) (acc : ℚ), keepRecent W l acc ≠ [] →
      acc + ((keepRecent W l acc).dropLast.map (fun i => i.duration)).sum < W := by
  intro l
  induction l with
  | nil => intro acc h; simp [keepRecent] at h
  | cons i rest ih =>
    intro acc h
    by_cases hacc : acc < W
    · rw [keepRecent, if_pos hacc] at h ⊢
      by_cases hrest : keepRecent W rest (acc + i.duration) = []
      · simp [hrest]
        exact hacc
      · have hb := ih (acc + i.duration) hrest
        rw [List.dropLast_cons_of_ne_nil hrest]
        simp only [List.map_cons, List.sum_cons]
        linarith
    · rw [keepRecent, if_neg hacc] at h
      exact absurd rfl h

/-- Duration sum over the tail of a reversed list equals the duration sum
over the list with its last element dropped. -/
theorem sum_dur_tail_reverse (l : List MovingAverageItem) (h : l ≠ []) :
    (l.reverse.tail.map (fun i => i.duration)).sum =
    (l.dropLast.map (fun i => i.duration)).sum := by
  conv_lhs => rw [← List.dropLast_append_getLast h]
  simp [List.reverse_append]
  rw [List.sum_reverse]

/-- The lexicographic HRS order is irreflexive. -/
theorem hrsLess_irrefl (a : HRSKey) : hrsLess a a = false := by
  simp [hrsLess]

/-- The lexicographic HRS order is asymmetric. -/
theorem hrsLess_asymm (a b : HRSKey) (h : hrsLess a b = true) : hrsLess b a = false := by
  simp only [hrsLess, decide_eq_true_eq, decide_eq_false_iff_not] at h ⊢
  omega

/-! ## Claim theorems -/

/-- Claim C1: a successful `getNonces(participants)` returns the first
entry, scanning from the oldest (front) forward, whose cosigner set is a
superset of the participants; the updated cache is the original with
exactly that entry removed, every earlier entry being a non-match; and
when entry uuids are distinct the returned entry is no longer in the
cache, so it can never be returned by a second call (consumed at most
once). Stated for every participant list with at least K participants. -/
theorem getNonces_consumes_first_match (cache : List CachedNonce) (ps : List Nat)
    (K : Nat) (hK : K ≤ ps.length) (n : CachedNonce) (c' : List CachedNonce)
    (h : getNonces cache ps = (some n, c')) :
    hasParticipants n ps = true ∧
    (∃ pre suf, cache = pre ++ n :: suf ∧ c' = pre ++ suf ∧
      ∀ m ∈ pre, hasParticipants m ps = false) ∧
    ((cache.map CachedNonce.uuid).Nodup → n.uuid ∉ c'.map CachedNonce.uuid) := by
  obtain ⟨hp, pre, suf, hcache, hc', hpre⟩ := getNonces_decomp ps cache n c' h
  refine ⟨hp, ⟨pre, suf, hcache, hc', hpre⟩, ?_⟩
  intro hnd
  subst hcache; subst hc'
  simp only [List.map_append, List.map_cons, List.nodup_append, List.nodup_cons,
    List.disjoint_left] at hnd
  simp only [List.map_append, List.mem_append]
  rintro (hmem | hmem)
  · exact hnd.2.2 hmem (List.mem_cons_self _ _)
  · exact hnd.2.1.1 hmem

/-- Witness for C1: on the cache [{2}, {1,2}, {1,2,3}] with participants
[1,2] (K = 2), the returned entry is the middle one and its uuid is gone
from the remaining cache. -/
theorem getNonces_consumes_first_match_witness :
    hasParticipants nonceB [1, 2] = true ∧
    nonceB.uuid ∉ [nonceA, nonceC].map CachedNonce.uuid := by
  have h := getNonces_consumes_first_match [nonceA, nonceB, nonceC] [1, 2] 2 (by decide)
    nonceB [nonceA, nonceC] (by decide)
  exact ⟨h.1, h.2.2 (by decide)⟩

/-- Claim C7: `getNonces` fails (NoNoncesAvailableError) iff no cached
entry contains all requested participants; in particular it fails on an
empty cache, and on failure the cache is left unchanged. -/
theorem getNonces_none_iff_no_match (cache : List CachedNonce) (ps : List Nat) :
    ((getNonces cache ps).1 = none ↔ ∀ n ∈ cache, hasParticipants n ps = false) ∧
    ((getNonces cache ps).1 = none → (getNonces cache ps).2 = cache) ∧
    (getNonces [] ps).1 = none := by
  refine ⟨?_, ?_, by simp [getNonces]⟩
  · induction cache with
    | nil => simp [getNonces]
    | cons a rest ih =>
      by_cases hm : hasParticipants a ps
      · simp [getNonces, hm]
      · simp only [getNonces, hm, if_false]
        simp only [List.mem_cons]
        constructor
        · intro h1 x hx
          rcases hx with hxa | hxr
          · subst hxa; simpa using hm
          · exact (ih.mp h1) x hxr
        · intro hall
          exact ih.mpr (fun x hx => hall x (Or.inr hx))
  · induction cache with
    | nil => intro _; rfl
    | cons a rest ih =>
      by_cases hm : hasParticipants a ps
      · intro h1
        simp [getNonces, hm] at h1
      · intro h1
        simp only [getNonces, hm, if_false] at h1 ⊢
        simp [ih h1]

/-- Witness for C7: a cache whose single entry has cosigner set {2} fails
for participant list [1] and is left unchanged. -/
theorem getNonces_none_iff_no_match_witness :
    (getNonces [nonceA] [1]).1 = none ∧ (getNonces [nonceA] [1]).2 = [nonceA] := by
  have h := getNonces_none_iff_no_match [nonceA] [1]
  exact ⟨h.1.mpr (by decide), h.2.1 ((h.1.mpr (by decide)))⟩

/-- Claim C2: after `clearNonces(c)` no surviving entry contains cosigner
c and every surviving entry still has at least K participants; on the
`TestClearNonces` cache (10 entries {1,2} and 10 entries {1,2,3}, K = 2),
clearing cosigner 1 leaves exactly 10 entries, each with participants
{2, 3}. -/
theorem clearNonces_removes_cosigner (K c : Nat) (cache : List CachedNonce) :
    (∀ n ∈ clearNonces K c cache,
      (∀ r ∈ n.nonces, r.cosigner ≠ c) ∧ K ≤ n.nonces.length) ∧
    (clearNonces 2 1 clearTestCache).length = 10 ∧
    (∀ n ∈ clearNonces 2 1 clearTestCache, n.cosignerIDs = [2, 3]) := by
  refine ⟨?_, by decide, by decide⟩
  intro n hn
  simp only [clearNonces, List.mem_filterMap] at hn
  obtain ⟨a, _, ha⟩ := hn
  split at ha
  · exact absurd ha (by simp)
  · rename_i hlen
    rw [Option.some.injEq] at ha
    subst ha
    constructor
    · intro r hr
      have hf := (List.mem_filter.mp hr).2
      simpa using hf
    · show K ≤ (List.filter (fun r => decide (r.cosigner ≠ c)) a.nonces).length
      omega

/-- Witness for C2: the first surviving entry of the `TestClearNonces`
scenario has participants {2, 3}. -/
theorem clearNonces_removes_cosigner_witness :
    (CosignerNoncesRel.mk 2 []).cosigner ≠ 1 ∧
    2 ≤ (CachedNonce.mk 1 1
      [CosignerNoncesRel.mk 2 [], CosignerNoncesRel.mk 3 []]).nonces.length := by
  have h := (clearNonces_removes_cosigner 2 1 clearTestCache).1
    (CachedNonce.mk 1 1 [CosignerNoncesRel.mk 2 [], CosignerNoncesRel.mk 3 []]) (by decide)
  exact ⟨h.1 (CosignerNoncesRel.mk 2 []) (by decide), h.2⟩

/-- Counterexample for C5 as stated: the claim gives the removal condition
both as "now > expiration" and as "expiration ≤ now"; these disagree at
expiration = now, where `pruneNonces` removes the entry (count 1, cache
emptied) although now > expiration is false. -/
theorem pruneNonces_boundary_counterexample :
    (pruneNonces 5 [CachedNonce.mk 0 5 []]).1 = 1 ∧
    (pruneNonces 5 [CachedNonce.mk 0 5 []]).2 = [] ∧
    ¬ (5 : ℚ) < 5 := by
  refine ⟨by decide, by decide, by norm_num⟩

/-- Claim C5 (amended): `pruneNonces` removes exactly the entries with
expiration ≤ now — the kept list is the subsequence of non-expired
entries, unchanged and in order — and returns the number of removed
entries; every kept entry satisfies now < expiration. -/
theorem pruneNonces_exact (now : ℚ) (cache : List CachedNonce) :
    (pruneNonces now cache).2 = cache.filter (fun n => decide (now < n.expiration)) ∧
    (pruneNonces now cache).1 = cache.countP (fun n => decide (n.expiration ≤ now)) ∧
    (pruneNonces now cache).1 + (pruneNonces now cache).2.length = cache.length ∧
    ∀ n ∈ (pruneNonces now cache).2, now < n.expiration := by
  induction cache with
  | nil => simp [pruneNonces]
  | cons a rest ih =>
    obtain ⟨ih1, ih2, ih3, ih4⟩ := ih
    by_cases hexp : a.expiration ≤ now
    · have hlt : ¬ now < a.expiration := not_lt.mpr hexp
      refine ⟨?_, ?_, ?_, ?_⟩
      · simp [pruneNonces, hexp, hlt, ih1]
      · simp [pruneNonces, hexp, List.countP_cons, ih2]
      · simp only [pruneNonces, hexp, if_true, List.length_cons]
        omega
      · simp only [pruneNonces, hexp, if_true]
        exact ih4
    · have hlt : now < a.expiration := lt_of_not_le hexp
      refine ⟨?_, ?_, ?_, ?_⟩
      · simp [pruneNonces, hexp, hlt, ih1]
      · simp [pruneNonces, hexp, List.countP_cons, ih2]
      · simp only [pruneNonces, hexp, if_false, List.length_cons]
        omega
      · simp only [pruneNonces, hexp, if_false]
        intro n hn
        rcases List.mem_cons.mp hn with hna | hnr
        · subst hna; exact hlt
        · exact ih4 n hnr

/-- Witness for C5: at now = 5, a cache with expirations {6, 4} keeps
exactly the entry expiring at 6, reports one removal, and the kept entry
is not yet expired. -/
theorem pruneNonces_exact_witness :
    (pruneNonces 5 [CachedNonce.mk 1 6 [], CachedNonce.mk 2 4 []]).2 =
      [CachedNonce.mk 1 6 []] ∧
    (pruneNonces 5 [CachedNonce.mk 1 6 [], CachedNonce.mk 2 4 []]).1 = 1 ∧
    (5 : ℚ) < (CachedNonce.mk 1 6 []).expiration := by
  have h := pruneNonces_exact 5 [CachedNonce.mk 1 6 [], CachedNonce.mk 2 4 []]
  exact ⟨by decide, by decide, h.2.2.2 (CachedNonce.mk 1 6 []) (by decide)⟩

/-- Claim C4: with window W = 12s, the adds (3s,500), (3s,100), (6s,600),
(3s,500), (6s,500) produce item counts 1, 2, 3, 3, 3 and averages
Σ(value·duration)/Σ(duration) equal to 500, 300, 450, 450, 540
respectively. -/
theorem movingAverage_test_sequence :
    maTest1.length = 1 ∧ maAverage maTest1 = 500 ∧
    maTest2.length = 2 ∧ maAverage maTest2 = 300 ∧
    maTest3.length = 3 ∧ maAverage maTest3 = 450 ∧
    maTest4.length = 3 ∧ maAverage maTest4 = 450 ∧
    maTest5.length = 3 ∧ maAverage maTest5 = 540 := by
  norm_num [maTest1, maTest2, maTest3, maTest4, maTest5, maAdd, maAverage, keepRecent]

/-- Claim C10: after every `maAdd` on a positive window W, the retained
items form a suffix of the previous items plus the new sample, the suffix
is nonempty, and the cumulative duration of the retained items excluding
the oldest retained one is strictly below W — the oldest item straddling
the window boundary is kept, so the total retained duration may exceed
W. -/
theorem maAdd_retains_straddling_suffix (W d v : ℚ) (items : List MovingAverageItem)
    (hW : 0 < W) :
    (∃ dropped, items ++ [MovingAverageItem.mk d v] = dropped ++ maAdd W items d v) ∧
    maAdd W items d v ≠ [] ∧
    ((maAdd W items d v).tail.map (fun i => i.duration)).sum < W := by
  have hrevcons : (items ++ [MovingAverageItem.mk d v]).reverse =
      MovingAverageItem.mk d v :: items.reverse := by simp
  have hkept : maAdd W items d v =
      (keepRecent W ((items ++ [MovingAverageItem.mk d v]).reverse) 0).reverse := rfl
  have hne : keepRecent W ((items ++ [MovingAverageItem.mk d v]).reverse) 0 ≠ [] := by
    rw [hrevcons, keepRecent, if_pos hW]
    simp
  refine ⟨?_, ?_, ?_⟩
  · obtain ⟨dropped, hd⟩ :=
      keepRecent_takes_front W ((items ++ [MovingAverageItem.mk d v]).reverse) 0
    refine ⟨dropped.reverse, ?_⟩
    rw [hkept]
    calc items ++ [MovingAverageItem.mk d v]
        = ((items ++ [MovingAverageItem.mk d v]).reverse).reverse := by
          rw [List.reverse_reverse]
      _ = (keepRecent W ((items ++ [MovingAverageItem.mk d v]).reverse) 0 ++
            dropped).reverse := by rw [← hd]
      _ = dropped.reverse ++
            (keepRecent W ((items ++ [MovingAverageItem.mk d v]).reverse) 0).reverse :=
          List.reverse_append _ _
  · rw [hkept]
    simpa using hne
  · have hb := keepRecent_acc_bound W ((items ++ [MovingAverageItem.mk d v]).reverse) 0 hne
    rw [hkept, sum_dur_tail_reverse _ hne]
    linarith

/-- Witness for C10: continuing the `TestMovingAverage` state with the
fifth (2500ms, 1000) sample, all five 2.5s samples are retained (total
12.5s > W = 12s) and the average is exactly 1000. -/
theorem maAdd_retains_straddling_suffix_witness :
    maAdd 12 maTest9 (5 / 2) 1000 ≠ [] ∧
    ((maAdd 12 maTest9 (5 / 2) 1000).tail.map (fun i => i.duration)).sum < 12 ∧
    maAdd 12 maTest9 (5 / 2) 1000 =
      [MovingAverageItem.mk (5 / 2) 1000, MovingAverageItem.mk (5 / 2) 1000,
       MovingAverageItem.mk (5 / 2) 1000, MovingAverageItem.mk (5 / 2) 1000,
       MovingAverageItem.mk (5 / 2) 1000] ∧
    maAverage (maAdd 12 maTest9 (5 / 2) 1000) = 1000 := by
  have h := maAdd_retains_straddling_suffix 12 (5 / 2) 1000 maTest9 (by norm_num)
  refine ⟨h.2.1, h.2.2, ?_, ?_⟩
  · norm_num [maTest9, maTest8, maTest7, maTest6, maTest5, maTest4, maTest3, maTest2,
      maTest1, maAdd, keepRecent]
  · norm_num [maTest9, maTest8, maTest7, maTest6, maTest5, maTest4, maTest3, maTest2,
      maTest1, maAdd, maAverage, keepRecent]

/-- Claim C6: the demand target always lies in [50, 5000]; it equals the
raw ceiling formula ceil(avg/interval · expiration · 1.2) when that value
is inside the bounds and is clamped to the violated bound otherwise; a
replenishment of T − have nonces is issued exactly when have < T. -/
theorem target_clamped (intervalSeconds expirationSeconds avg : ℚ) (tgt sz : ℤ) :
    (50 ≤ target intervalSeconds expirationSeconds avg ∧
      target intervalSeconds expirationSeconds avg ≤ 5000) ∧
    (50 ≤ rawTarget intervalSeconds expirationSeconds avg →
      rawTarget intervalSeconds expirationSeconds avg ≤ 5000 →
      target intervalSeconds expirationSeconds avg =
        rawTarget intervalSeconds expirationSeconds avg) ∧
    (rawTarget intervalSeconds expirationSeconds avg < 50 →
      target intervalSeconds expirationSeconds avg = 50) ∧
    (5000 < rawTarget intervalSeconds expirationSeconds avg →
      target intervalSeconds expirationSeconds avg = 5000) ∧
    (sz < tgt → replenishAmount tgt sz = some (tgt - sz)) ∧
    (tgt ≤ sz → replenishAmount tgt sz = none) := by
  refine ⟨?_, ?_, ?_, ?_, ?_, ?_⟩
  · unfold target
    split_ifs <;> omega
  · intro h1 h2
    unfold target
    split_ifs <;> omega
  · intro h1
    unfold target
    split_ifs <;> omega
  · intro h1
    unfold target
    split_ifs <;> omega
  · intro h1
    simp [replenishAmount, h1]
  · intro h1
    simp [replenishAmount, not_lt.mpr h1]

/-- Witness for C6: with interval 1s, expiration 10s and moving average
10, the raw target is 120, inside the bounds, so the target is 120; a
cache of 30 nonces triggers a replenishment of 90 and a cache of 500
triggers none. -/
theorem target_clamped_witness :
    50 ≤ target 1 10 10 ∧ target 1 10 10 ≤ 5000 ∧ target 1 10 10 = 120 ∧
    replenishAmount 120 30 = some 90 ∧ replenishAmount 120 500 = none := by
  have h := target_clamped 1 10 10 120 30
  have h2 := target_clamped 1 10 10 120 500
  have hraw : rawTarget 1 10 10 = 120 := by
    rw [rawTarget]
    norm_num
  refine ⟨h.1.1, h.1.2, ?_, ?_, ?_⟩
  · have ht := h.2.1 (by rw [hraw]; norm_num) (by rw [hraw]; norm_num)
    rw [ht, hraw]
  · exact h.2.2.2.2.1 (by norm_num)
  · exact h2.2.2.2.2.2 (by norm_num)

/-- Claim C3: against the persisted last-signed record, `checkAndReserve`
fails with BeyondBlockError when hrs < last, replays the cached signature
and timestamp when hrs = last and the sign bytes coincide, fails with
ConflictingDataError when hrs = last and the sign bytes differ, and
proceeds when hrs > last. -/
theorem checkAndReserve_cases (last : LastSignState) (hrs : HRSKey) (bytes : List Nat) :
    (hrsLess hrs last.hrs = true →
      checkAndReserve last hrs bytes = CheckResult.FailBeyondBlock) ∧
    (hrs = last.hrs → bytes = last.signBytes →
      checkAndReserve last hrs bytes = CheckResult.Replay last.signature last.timestamp) ∧
    (hrs = last.hrs → bytes ≠ last.signBytes →
      checkAndReserve last hrs bytes = CheckResult.FailConflictingData) ∧
    (hrsLess last.hrs hrs = true →
      checkAndReserve last hrs bytes = CheckResult.Proceed) := by
  refine ⟨?_, ?_, ?_, ?_⟩
  · intro h
    simp [checkAndReserve, h]
  · intro h hb
    rw [checkAndReserve]
    rw [h, hrsLess_irrefl]
    simp [hb]
  · intro h hb
    rw [checkAndReserve]
    rw [h, hrsLess_irrefl]
    simp [hb]
  · intro h
    have h1 : hrsLess hrs last.hrs = false := hrsLess_asymm _ _ h
    have h2 : hrs ≠ last.hrs := by
      intro e
      rw [e, hrsLess_irrefl] at h
      exact Bool.false_ne_true h
    simp [checkAndReserve, h1, h2]

/-- Witness for C3: the spec's double-sign guard scenario. With last =
(h=10, r=0, s=Precommit, bytes=[1,2], σ=[9], ts=7): an identical resubmit
replays ([9], 7); same HRS with different bytes is ConflictingData;
height 9 is BeyondBlock; height 11 proceeds. -/
theorem checkAndReserve_cases_witness :
    checkAndReserve (LastSignState.mk (HRSKey.mk 10 0 3) [1, 2] [9] 7)
      (HRSKey.mk 10 0 3) [1, 2] = CheckResult.Replay [9] 7 ∧
    checkAndReserve (LastSignState.mk (HRSKey.mk 10 0 3) [1, 2] [9] 7)
      (HRSKey.mk 10 0 3) [3] = CheckResult.FailConflictingData ∧
    checkAndReserve (LastSignState.mk (HRSKey.mk 10 0 3) [1, 2] [9] 7)
      (HRSKey.mk 9 0 3) [1, 2] = CheckResult.FailBeyondBlock ∧
    checkAndReserve (LastSignState.mk (HRSKey.mk 10 0 3) [1, 2] [9] 7)
      (HRSKey.mk 11 0 1) [5] = CheckResult.Proceed := by
  refine ⟨?_, ?_, ?_, ?_⟩
  · exact (checkAndReserve_cases _ _ _).2.1 (by decide) (by decide)
  · exact (checkAndReserve_cases _ _ _).2.2.1 (by decide) (by decide)
  · exact (checkAndReserve_cases _ _ _).1 (by decide)
  · exact (checkAndReserve_cases _ _ _).2.2.2 (by decide)

/-- Claim C8: when `validator.Sign` errors, `signAndTrack` returns the
error with a nil signature and the request timestamp, touches no
signed/last-height metrics; a BeyondBlockError increments
beyondBlockErrors and is logged at debug level, any other error
increments failedSignVote and is logged at error level. -/
theorem signAndTrack_error_behavior (m : SignerMetrics) (block : Block) (e : SignErrorKind) :
    (signAndTrack m block (Except.error e)).1 = (none, block.timestamp, some e) ∧
    (∀ msg, e = SignErrorKind.beyondBlock msg →
      (signAndTrack m block (Except.error e)).2.1 =
        { m with beyondBlockErrors := m.beyondBlockErrors + 1 } ∧
      (signAndTrack m block (Except.error e)).2.2 = [LogLevel.debug]) ∧
    (∀ msg, e = SignErrorKind.otherErr msg →
      (signAndTrack m block (Except.error e)).2.1 =
        { m with failedSignVote := m.failedSignVote + 1 } ∧
      (signAndTrack m block (Except.error e)).2.2 = [LogLevel.error]) := by
  cases e <;> simp [signAndTrack]

/-- Witness for C8: on the zero metrics state, a BeyondBlockError yields a
debug log and bumps only beyondBlockErrors; another error yields an error
log and bumps only failedSignVote. -/
theorem signAndTrack_error_behavior_witness :
    (signAndTrack metricsZero blockPrevote10
      (Except.error (SignErrorKind.beyondBlock []))).1 =
      (none, blockPrevote10.timestamp, some (SignErrorKind.beyondBlock [])) ∧
    (signAndTrack metricsZero blockPrevote10
      (Except.error (SignErrorKind.beyondBlock []))).2.1 =
      { metricsZero with beyondBlockErrors := metricsZero.beyondBlockErrors + 1 } ∧
    (signAndTrack metricsZero blockPrevote10
      (Except.error (SignErrorKind.beyondBlock []))).2.2 = [LogLevel.debug] ∧
    (signAndTrack metricsZero blockPrevote10
      (Except.error (SignErrorKind.otherErr []))).2.1 =
      { metricsZero with failedSignVote := metricsZero.failedSignVote + 1 } ∧
    (signAndTrack metricsZero blockPrevote10
      (Except.error (SignErrorKind.otherErr []))).2.2 = [LogLevel.error] := by
  have h1 := signAndTrack_error_behavior metricsZero blockPrevote10
    (SignErrorKind.beyondBlock [])
  have h2 := signAndTrack_error_behavior metricsZero blockPrevote10
    (SignErrorKind.otherErr [])
  exact ⟨h1.1, (h1.2.1 [] rfl).1, (h1.2.1 [] rfl).2, (h2.2.2 [] rfl).1, (h2.2.2 [] rfl).2⟩

/-- Claim C9: on a successful prevote sign at height h, when the recorded
previous prevote height p is nonzero and h − p > 1, missedPrevotes and
totalMissedPrevotes grow by h − p, otherwise missedPrevotes is set to 0;
the previous/last prevote gauges and the signed counter are updated; the
analogous rule holds for precommits; a proposal sign updates only the
proposal gauges and signed counter. -/
theorem signAndTrack_success_metrics (m : SignerMetrics) (block : Block)
    (sig : List Nat) (ts : Int) :
    (signAndTrack m block (Except.ok (sig, ts))).1 = (some sig, ts, none) ∧
    (block.step = stepPrevote →
      ((m.previousPrevoteHeight ≠ 0 ∧ 1 < block.height - m.previousPrevoteHeight →
        ((signAndTrack m block (Except.ok (sig, ts))).2.1).missedPrevotes =
          m.missedPrevotes + ((block.height - m.previousPrevoteHeight : ℤ) : ℚ) ∧
        ((signAndTrack m block (Except.ok (sig, ts))).2.1).totalMissedPrevotes =
          m.totalMissedPrevotes + ((block.height - m.previousPrevoteHeight : ℤ) : ℚ)) ∧
       (¬ (m.previousPrevoteHeight ≠ 0 ∧ 1 < block.height - m.previousPrevoteHeight) →
        ((signAndTrack m block (Except.ok (sig, ts))).2.1).missedPrevotes = 0) ∧
       ((signAndTrack m block (Except.ok (sig, ts))).2.1).previousPrevoteHeight =
         block.height ∧
       ((signAndTrack m block (Except.ok (sig, ts))).2.1).lastPrevoteHeight =
         (block.height : ℚ) ∧
       ((signAndTrack m block (Except.ok (sig, ts))).2.1).lastPrevoteRound =
         (block.round : ℚ) ∧
       ((signAndTrack m block (Except.ok (sig, ts))).2.1).totalPrevotesSigned =
         m.totalPrevotesSigned + 1)) ∧
    (block.step = stepPrecommit →
      ((m.previousPrecommitHeight ≠ 0 ∧ 1 < block.height - m.previousPrecommitHeight →
        ((signAndTrack m block (Except.ok (sig, ts))).2.1).missedPrecommits =
          m.missedPrecommits + ((block.height - m.previousPrecommitHeight : ℤ) : ℚ) ∧
        ((signAndTrack m block (Except.ok (sig, ts))).2.1).totalMissedPrecommits =
          m.totalMissedPrecommits + ((block.height - m.previousPrecommitHeight : ℤ) : ℚ)) ∧
       (¬ (m.previousPrecommitHeight ≠ 0 ∧ 1 < block.height - m.previousPrecommitHeight) →
        ((signAndTrack m block (Except.ok (sig, ts))).2.1).missedPrecommits = 0) ∧
       ((signAndTrack m block (Except.ok (sig, ts))).2.1).previousPrecommitHeight =
         block.height ∧
       ((signAndTrack m block (Except.ok (sig, ts))).2.1).lastPrecommitHeight =
         (block.height : ℚ) ∧
       ((signAndTrack m block (Except.ok (sig, ts))).2.1).lastPrecommitRound =
         (block.round : ℚ) ∧
       ((signAndTrack m block (Except.ok (sig, ts))).2.1).totalPrecommitsSigned =
         m.totalPrecommitsSigned + 1)) ∧
    (block.step = stepPropose →
      (signAndTrack m block (Except.ok (sig, ts))).2.1 =
        { m with
          lastProposalHeight := (block.height : ℚ)
          lastProposalRound := (block.round : ℚ)
          totalProposalsSigned := m.totalProposalsSigned + 1 }) := by
  refine ⟨rfl, ?_, ?_, ?_⟩
  · intro h
    by_cases hc : m.previousPrevoteHeight ≠ 0 ∧ 1 < block.height - m.previousPrevoteHeight
    · simp [signAndTrack, h, stepPropose, stepPrevote, hc]
    · simp [signAndTrack, h, stepPropose, stepPrevote, hc]
  · intro h
    by_cases hc : m.previousPrecommitHeight ≠ 0 ∧ 1 < block.height - m.previousPrecommitHeight
    · simp [signAndTrack, h, stepPropose, stepPrevote, stepPrecommit, hc]
    · simp [signAndTrack, h, stepPropose, stepPrevote, stepPrecommit, hc]
  · intro h
    simp [signAndTrack, h, stepPropose]

/-- Witness for C9: a prevote at height 10 with previous prevote height 5
adds 5 to both missed counters and records height 10; with previous
height 0 the missed counter resets to 0; a proposal at height 11 updates
only the proposal gauges and counter. -/
theorem signAndTrack_success_metrics_witness :
    ((signAndTrack metricsPrev5 blockPrevote10 (Except.ok ([9], 3))).2.1).missedPrevotes = 5 ∧
    ((signAndTrack metricsPrev5 blockPrevote10
      (Except.ok ([9], 3))).2.1).totalMissedPrevotes = 5 ∧
    ((signAndTrack metricsPrev5 blockPrevote10
      (Except.ok ([9], 3))).2.1).previousPrevoteHeight = 10 ∧
    ((signAndTrack metricsZero blockPrevote10 (Except.ok ([9], 3))).2.1).missedPrevotes = 0 ∧
    (signAndTrack metricsZero blockPropose11 (Except.ok ([9], 3))).2.1 =
      { metricsZero with lastProposalHeight := 11, totalProposalsSigned := 1 } := by
  have hp := (signAndTrack_success_metrics metricsPrev5 blockPrevote10 [9] 3).2.1 rfl
  have hz := (signAndTrack_success_metrics metricsZero blockPrevote10 [9] 3).2.1 rfl
  have hq := (signAndTrack_success_metrics metricsZero blockPropose11 [9] 3).2.2.2 rfl
  refine ⟨?_, ?_, ?_, ?_, ?_⟩
  · rw [(hp.1 (by decide)).1]
    norm_num [metricsPrev5, metricsZero, blockPrevote10]
  · rw [(hp.1 (by decide)).2]
    norm_num [metricsPrev5, metricsZero, blockPrevote10]
  · rw [hp.2.2.1]
    rfl
  · exact hz.2.1 (by decide)
  · rw [hq]
    norm_num [metricsZero, blockPropose11]

end Horcrux
